import Mathlib

/-!
# Verification of the CARS error-analyzer core

Shallow embedding of the error-classification and session-state engine of
`app.py`: the keyword classifier `analyze_errors`, the ranking logic
`top_errors`, the content parser (split on the answer marker), and the
per-(category, slot) session state machine (passage cache, reveal flag,
chat transcript).  Machine strings are modelled as Lean `String`
(with `List Char` views where substring scanning matters); a pandas cell
that may be NaN is `Option String`; the generator collaborator is an
oracle parameter returning `Option String` (`none` = raised exception).
-/

set_option maxHeartbeats 1000000

namespace CarsAnalyzer

/-- Python `a.startswith(b)` / prefix test on character lists,
used to implement substring search. -/
def isPrefixList : List Char → List Char → Bool
  | [], _ => true
  | _ :: _, [] => false
  | a :: as, b :: bs => a == b && isPrefixList as bs

/-- Python `sep in text` (substring containment) on character lists. -/
def containsSub (sep : List Char) : List Char → Bool
  | [] => sep.isEmpty
  | c :: cs => isPrefixList sep (c :: cs) || containsSub sep cs

/-- Python `str.lower()` restricted to the ASCII texts the program handles,
as a character-list view. -/
def lowerChars (s : String) : List Char := s.toList.map Char.toLower

/-- One row of the uploaded dataset (`app.py` reads columns
`Passage_Title` and `Why_I_Got_It_Wrong`); `none` models a NaN cell. -/
structure Row where
  Passage_Title : String
  Why_I_Got_It_Wrong : Option String
deriving DecidableEq, Repr

/-- The static pattern catalog of `analyze_errors` (`app.py` lines 19-27),
an insertion-ordered dict modelled as an association list. -/
def error_patterns : List (String × List String) :=
  [("Tone/Attitude", ["tone", "attitude", "perspective", "viewpoint", "neutral", "negative"]),
   ("Context Misread", ["context", "paragraph", "line", "section", "reread", "passage"]),
   ("Overthinking", ["assumed", "overthought", "bias", "should be", "reasoning"]),
   ("Detail Missed", ["missed", "overlooked", "didn't notice", "not stated"]),
   ("Question Misinterpretation", ["misunderstood", "misinterpreted", "question"]),
   ("Structure Error", ["main idea", "first sentence", "paragraph structure"]),
   ("Vocabulary", ["word", "term", "phrase", "meaning", "empirical"])]

/-- The classifier's report: insertion-ordered mapping
category → matched passage titles (Python `defaultdict(list)`). -/
abbrev ErrorReport := List (String × List String)

/-- `results[pattern].append(passage)` on a `defaultdict(list)`:
append to the entry of `pattern`, creating it at the end on first access. -/
def addMatch : ErrorReport → String → String → ErrorReport
  | [], pattern, passage => [(pattern, [passage])]
  | (c, ps) :: rest, pattern, passage =>
    if c = pattern then (c, ps ++ [passage]) :: rest
    else (c, ps) :: addMatch rest pattern passage

/-- Reading `results[c]` from the report (empty when the key is absent). -/
def lookupSeq : ErrorReport → String → List String
  | [], _ => []
  | (c0, ps) :: rest, c => if c0 = c then ps else lookupSeq rest c

/-- `any(kw in error_text for kw in keywords)` (`app.py` line 40). -/
def kwMatch (error_text : List Char) (keywords : List String) : Bool :=
  keywords.any (fun kw => containsSub kw.toList error_text)

/-- The body of the row loop of `analyze_errors` (`app.py` lines 31-41):
skip a NaN explanation, lowercase the text, and append the passage title
under every catalog category with a keyword hit. -/
def processRow (report : ErrorReport) (row : Row) : ErrorReport :=
  match row.Why_I_Got_It_Wrong with
  | none => report
  | some w =>
    let error_text := lowerChars w
    error_patterns.foldl
      (fun results pe =>
        if kwMatch error_text pe.2 then addMatch results pe.1 row.Passage_Title
        else results)
      report

/-- `analyze_errors` (`app.py` lines 17-43). -/
def analyze_errors (rows : List Row) : ErrorReport :=
  rows.foldl processRow []

/-- Comparison used by
`sorted(error_report.items(), key=lambda x: len(x[1]), reverse=True)`:
a stable descending sort on sequence length. -/
def lenDescLe (x y : String × List String) : Bool :=
  decide (y.2.length ≤ x.2.length)

/-- `top_errors` (`app.py` line 118): stable sort by match count
descending, truncated to the first 3. -/
def top_errors (error_report : ErrorReport) : ErrorReport :=
  (error_report.mergeSort lenDescLe).take 3

/-- The predicate "this dataset row matches category `c`": the explanation
is present and some keyword of `c`'s catalog entry occurs in its lowercased
text.  Specification-side view of one iteration of the classifier's loop. -/
def rowMatches (r : Row) (c : String) : Bool :=
  match r.Why_I_Got_It_Wrong with
  | none => false
  | some w => error_patterns.any (fun pe => decide (pe.1 = c) && kwMatch (lowerChars w) pe.2)

/-- `df.dropna(subset=["Why_I_Got_It_Wrong"])` (`app.py` line 90): keep the
rows whose explanation cell is present.  The subsequent `astype(str)` is the
identity on the remaining (string) cells. -/
def dropnaWhy (rows : List Row) : List Row :=
  rows.filter (fun r => r.Why_I_Got_It_Wrong.isSome)

/-! ## Content parsing (`app.py` lines 132-135) -/

/-- The fixed section marker `full_text.split("### Answer & Explanation")`
splits on. -/
def ANSWER_MARKER : String := "### Answer & Explanation"

/-- The marker as a character list, for the scanner below. -/
def markerChars : List Char := ANSWER_MARKER.toList

/-- `isPrefixList p l` forces `l` to be at least as long as `p`. -/
theorem isPrefixList_length {p l : List Char} (h : isPrefixList p l = true) :
    p.length ≤ l.length := by
  induction p generalizing l with
  | nil => exact Nat.zero_le _
  | cons a as ih =>
    cases l with
    | nil => simp [isPrefixList] at h
    | cons b bs =>
      simp only [isPrefixList, Bool.and_eq_true] at h
      simpa [Nat.succ_le_succ_iff] using ih h.2

/-- Python `str.split(sep)` for the fixed marker: left-to-right scan,
cutting at every non-overlapping occurrence; `acc` holds the current piece
reversed. -/
def splitOnMarkerAux : List Char → List Char → List (List Char)
  | [], acc => [acc.reverse]
  | c :: cs, acc =>
    if h : isPrefixList markerChars (c :: cs) = true then
      acc.reverse :: splitOnMarkerAux ((c :: cs).drop markerChars.length) []
    else
      splitOnMarkerAux cs (c :: acc)
termination_by l _ => l.length
decreasing_by
  · have h1 : markerChars.length ≤ (c :: cs).length := isPrefixList_length h
    have h2 : 0 < markerChars.length := by decide
    simp only [List.length_drop]
    omega
  · simp

/-- `full_text.split("### Answer & Explanation")` on the character view. -/
def pySplitOnMarker (l : List Char) : List (List Char) := splitOnMarkerAux l []

/-- Parsing of generated content (`app.py` lines 132-135): `parts[0]`
stripped is the passage section, `parts[1]` stripped is the answer section
when the marker was present, else the fixed unavailable sentinel. -/
def parseContent (full_text : String) : String × String :=
  ((String.mk ((pySplitOnMarker full_text.toList).headD [])).trim,
    match pySplitOnMarker full_text.toList with
    | _ :: p1 :: _ => (String.mk p1).trim
    | _ => "⚠️ Answers not available.")

/-! ## Session state (`app.py` lines 121-175)

One `ConversationUnit` per `(category, slot)` key: the `passage_…`,
`reveal_…` and `chat_…` entries of `st.session_state` for that key.
`reveal_…` and `chat_…` are initialised to `False` / `[]` before first use
(lines 142-143, 157-158), so they are plain fields with those defaults;
`passage_…` keeps the explicit absent state, which is the caching logic
itself.  The generator collaborator is an oracle; `none` models a raised
exception. -/

/-- One chat transcript entry `{"role": …, "content": …}`. -/
structure Msg where
  role : String
  content : String
deriving DecidableEq, Repr

/-- The session-state unit for one `(category, slot)` key. -/
structure Session where
  passage : Option String
  revealed : Bool
  chat : List Msg
deriving DecidableEq, Repr

/-- The unit as first referenced: no content, hidden, empty transcript. -/
def freshSession : Session := ⟨none, false, []⟩

/-- Lines 128-129: `if passage_key not in st.session_state:
st.session_state[passage_key] = generate_cars_content(err_type)`.
Returns the updated unit and the number of generator invocations (the
assignment does not happen when the generator raises). -/
def ensurePassage (gen : Option String) (s : Session) : Session × Nat :=
  match s.passage with
  | some _ => (s, 0)
  | none =>
    match gen with
    | some text => ({ s with passage := some text }, 1)
    | none => (s, 1)

/-- Repeated UI-triggered runs of the passage block: each run gets its own
generator outcome; the value component records `st.session_state[passage_key]`
as read by each run (`full_text`, line 132), and the last component counts
the generator invocations over the whole sequence. -/
def runEnsure : List (Option String) → Session → Session × List (Option String) × Nat
  | [], s => (s, [], 0)
  | g :: gs, s =>
    let r1 := ensurePassage g s
    let rest := runEnsure gs r1.1
    (rest.1, r1.1.passage :: rest.2.1, r1.2 + rest.2.2)

/-- Lines 145-147: the reveal button is shown only while the flag is false,
and pressing it sets the flag to true.  No operation clears it. -/
def pressReveal (s : Session) : Session :=
  if s.revealed = false then { s with revealed := true } else s

/-- Line 149: reading `st.session_state[reveal_key]`. -/
def isRevealed (s : Session) : Bool := s.revealed

/-- Python `l[-n:]`. -/
def lastN {α : Type} (n : Nat) (l : List α) : List α := l.drop (l.length - n)

/-- Line 168: `full_context = [{"role": "assistant", "content":
st.session_state[passage_key]}] + st.session_state[chat_key][-5:]`, built
after the user turn was appended. -/
def full_context (s : Session) (prompt : String) : List Msg :=
  Msg.mk "assistant" (s.passage.getD "") :: lastN 5 (s.chat ++ [Msg.mk "user" prompt])

/-- Lines 164-175, one chat submission: append the user turn, invoke the
generator on `full_context`, and append the assistant reply only on
success.  Returns the unit, the reply (`none` = the generator raised) and
the list of generator invocations (each with its history argument). -/
def chatTurn (gen : List Msg → Option String) (prompt : String) (s : Session) :
    Session × Option String × List (List Msg) :=
  match gen (full_context s prompt) with
  | some reply =>
    ({ s with chat := (s.chat ++ [Msg.mk "user" prompt]) ++ [Msg.mk "assistant" reply] },
      some reply, [full_context s prompt])
  | none => ({ s with chat := s.chat ++ [Msg.mk "user" prompt] }, none, [full_context s prompt])

/-- The operations the UI can trigger on one unit. -/
inductive Op where
  | genPassage (gen : Option String)
  | revealAnswers
  | chat (gen : List Msg → Option String) (prompt : String)

/-- Effect of one UI-triggered operation on the unit's state. -/
def step (s : Session) : Op → Session
  | Op.genPassage gen => (ensurePassage gen s).1
  | Op.revealAnswers => pressReveal s
  | Op.chat gen prompt => (chatTurn gen prompt s).1

/-- A whole interaction history on one unit. -/
def runOps (ops : List Op) (s : Session) : Session := ops.foldl step s

/-- Number of times one row's classifier loop appends this row's passage
title under category `c`: one append per catalog entry for `c` whose
keywords hit the lowercased explanation. -/
def rowHits (r : Row) (c : String) : Nat :=
  match r.Why_I_Got_It_Wrong with
  | none => 0
  | some w =>
    (error_patterns.filter (fun pe => decide (pe.1 = c) && kwMatch (lowerChars w) pe.2)).length

/-- The three-row dataset of the spec's classification scenario. -/
def rowsC2 : List Row :=
  [⟨"P1", some "The tone was clearly negative but I misread it"⟩,
   ⟨"P2", some "I missed a key detail in paragraph 2"⟩,
   ⟨"P3", none⟩]

/-! ## Helper lemmas: the classifier's report -/

theorem lookupSeq_addMatch (rep : ErrorReport) (pattern passage c : String) :
    lookupSeq (addMatch rep pattern passage) c =
      if pattern = c then lookupSeq rep c ++ [passage] else lookupSeq rep c := by
  induction rep with
  | nil =>
    by_cases h : pattern = c <;> simp [addMatch, lookupSeq, h]
  | cons hd tl ih =>
    obtain ⟨c0, ps⟩ := hd
    by_cases h1 : c0 = pattern
    · subst h1
      by_cases h2 : c0 = c <;> simp [addMatch, lookupSeq, h2]
    · by_cases h2 : c0 = c
      · subst h2
        have hpc : ¬ pattern = c0 := fun h => h1 h.symm
        simp [addMatch, lookupSeq, h1, hpc]
      · simp [addMatch, lookupSeq, h1, h2, ih]

theorem lookupSeq_foldPatterns (pats : List (String × List String)) (t : List Char)
    (passage : String) (rep : ErrorReport) (c : String) :
    lookupSeq
        (pats.foldl
          (fun results pe => if kwMatch t pe.2 then addMatch results pe.1 passage else results)
          rep) c =
      lookupSeq rep c ++
        List.replicate ((pats.filter (fun pe => decide (pe.1 = c) && kwMatch t pe.2)).length)
          passage := by
  induction pats generalizing rep with
  | nil => simp
  | cons pe rest ih =>
    by_cases hk : kwMatch t pe.2 = true
    · by_cases hc : pe.1 = c
      · simp only [List.foldl_cons, hk, if_true, ih, lookupSeq_addMatch, hc, if_pos,
          List.filter_cons, hk, Bool.and_true, decide_eq_true_eq]
        simp [hc, List.replicate_succ, List.append_assoc]
      · simp only [List.foldl_cons, hk, if_true, ih, lookupSeq_addMatch, hc, if_neg,
          List.filter_cons]
        simp [hc, hk]
    · simp only [List.foldl_cons, hk, Bool.false_eq_true, if_false, ih, List.filter_cons]
      simp [hk]

theorem count_lookupSeq_foldRows (rows : List Row) (rep : ErrorReport) (c p : String) :
    (lookupSeq (rows.foldl processRow rep) c).count p =
      (lookupSeq rep c).count p +
        (rows.map (fun r => rowHits r c * (if r.Passage_Title = p then 1 else 0))).sum := by
  induction rows generalizing rep with
  | nil => simp
  | cons r rest ih =>
    simp only [List.foldl_cons, ih, List.map_cons, List.sum_cons]
    have hstep : (lookupSeq (processRow rep r) c).count p =
        (lookupSeq rep c).count p + rowHits r c * (if r.Passage_Title = p then 1 else 0) := by
      cases hw : r.Why_I_Got_It_Wrong with
      | none => simp [processRow, hw, rowHits]
      | some w =>
        simp only [processRow, hw, lookupSeq_foldPatterns, List.count_append, rowHits]
        by_cases hp : r.Passage_Title = p
        · subst hp
          simp [List.count_replicate]
        · simp [List.count_replicate, hp, fun h : p = r.Passage_Title => hp h.symm]
    omega

/-- The catalog's category names are pairwise distinct. -/
theorem error_patterns_keys_nodup : (error_patterns.map Prod.fst).Nodup := by decide

theorem filter_length_of_nodup_keys (l : List (String × List String))
    (hnd : (l.map Prod.fst).Nodup) (c : String) (P : String × List String → Bool) :
    (l.filter (fun pe => decide (pe.1 = c) && P pe)).length =
      if l.any (fun pe => decide (pe.1 = c) && P pe) then 1 else 0 := by
  induction l with
  | nil => simp
  | cons pe rest ih =>
    simp only [List.map_cons, List.nodup_cons] at hnd
    by_cases hcond : (decide (pe.1 = c) && P pe) = true
    · have hc : pe.1 = c := by
        have := hcond
        simp only [Bool.and_eq_true, decide_eq_true_eq] at this
        exact this.1
      have hrest : rest.filter (fun pe => decide (pe.1 = c) && P pe) = [] := by
        apply List.filter_eq_nil_iff.mpr
        intro q hq
        have hq1 : q.1 ≠ c := by
          intro hqc
          exact hnd.1 (by
            rw [← hqc] at hc
            rw [hc]
            exact List.mem_map_of_mem Prod.fst hq)
        simp [hq1]
      simp [List.filter_cons, hcond, hrest, List.any_cons]
    · simp only [List.filter_cons, hcond, Bool.false_eq_true, if_false, List.any_cons,
        Bool.false_or, ih hnd.2]

theorem rowMatches_some (r : Row) (c w : String) (hw : r.Why_I_Got_It_Wrong = some w) :
    rowMatches r c =
      error_patterns.any (fun pe => decide (pe.1 = c) && kwMatch (lowerChars w) pe.2) := by
  unfold rowMatches
  rw [hw]

theorem rowMatches_none (r : Row) (c : String) (hw : r.Why_I_Got_It_Wrong = none) :
    rowMatches r c = false := by
  unfold rowMatches
  rw [hw]

theorem rowHits_eq_rowMatches (r : Row) (c : String) :
    rowHits r c = if rowMatches r c then 1 else 0 := by
  cases hw : r.Why_I_Got_It_Wrong with
  | none => simp [rowHits, rowMatches_none r c hw, hw]
  | some w =>
    rw [rowMatches_some r c w hw]
    simp [rowHits, hw,
      filter_length_of_nodup_keys error_patterns error_patterns_keys_nodup]

/-- The per-row contribution to a category's sequence, summed over the
dataset, is the number of rows matching the category (with the given
passage title). -/
theorem count_lookupSeq_analyze (rows : List Row) (c p : String) :
    (lookupSeq (analyze_errors rows) c).count p =
      (rows.filter (fun r => decide (r.Passage_Title = p) && rowMatches r c)).length := by
  rw [analyze_errors, count_lookupSeq_foldRows]
  simp only [lookupSeq, List.count_nil, Nat.zero_add]
  have hfun : ∀ r : Row, rowHits r c * (if r.Passage_Title = p then 1 else 0) =
      if (decide (r.Passage_Title = p) && rowMatches r c) = true then 1 else 0 := by
    intro r
    rw [rowHits_eq_rowMatches]
    by_cases hm : rowMatches r c = true <;> by_cases hp : r.Passage_Title = p <;>
      simp [hm, hp]
  simp only [hfun]
  induction rows with
  | nil => simp
  | cons r rest ih =>
    simp only [List.map_cons, List.sum_cons, List.filter_cons]
    by_cases hc : (decide (r.Passage_Title = p) && rowMatches r c) = true
    · simp only [hc, if_true, List.length_cons, ih]
      omega
    · simp only [hc, if_false, ih, Bool.not_eq_true] at *
      simp [hc, ih]

/-- No keyword of the catalog is the empty string. -/
theorem error_patterns_keywords_nonempty :
    error_patterns.all (fun pe => pe.2.all (fun kw => !kw.toList.isEmpty)) = true := by decide

/-- A row whose explanation is the empty string matches no category:
every keyword is non-empty, and a non-empty keyword is not a substring of
the empty text. -/
theorem rowMatches_empty_explanation (r : Row) (c : String)
    (hw : r.Why_I_Got_It_Wrong = some "") : rowMatches r c = false := by
  rw [rowMatches_some r c "" hw]
  rw [List.any_eq_false]
  intro pe hpe
  have hkw : kwMatch (lowerChars "") pe.2 = false := by
    unfold kwMatch
    rw [List.any_eq_false]
    intro kw hkwmem
    have hne := List.all_eq_true.mp
      (List.all_eq_true.mp error_patterns_keywords_nonempty pe hpe) kw hkwmem
    cases hkl : kw.toList with
    | nil => rw [hkl] at hne; simp at hne
    | cons a as => simp [containsSub, hkl, lowerChars]
  simp [hkw]

/-! ## Claim theorems: classifier and aggregator -/

/-- C10: for every input record and every category, `analyze_errors`
appends the record's passage title to that category's sequence at most once
per row, even when the explanation contains several keywords of that
category: the number of occurrences of a passage title in a category's
sequence equals the number of dataset rows bearing that title whose
explanation matches the category, not the number of keyword hits. -/
theorem passage_appended_once_per_row (rows : List Row) (c p : String) :
    (lookupSeq (analyze_errors rows) c).count p =
      (rows.filter (fun r => decide (r.Passage_Title = p) && rowMatches r c)).length :=
  count_lookupSeq_analyze rows c p

/-- C5: no passage title coming from a row whose explanation is missing or
empty appears in any category's sequence of the report: every occurrence is
contributed by a row with a present, non-empty explanation. -/
theorem skip_invariant (rows : List Row) (c p : String)
    (hp : p ∈ lookupSeq (analyze_errors rows) c) :
    ∃ r, r ∈ rows ∧ r.Passage_Title = p ∧
      ∃ w, r.Why_I_Got_It_Wrong = some w ∧ w ≠ "" := by
  have hcount : 0 < (lookupSeq (analyze_errors rows) c).count p :=
    List.count_pos_iff.mpr hp
  rw [count_lookupSeq_analyze] at hcount
  have hne : rows.filter (fun r => decide (r.Passage_Title = p) && rowMatches r c) ≠ [] := by
    intro hnil
    rw [hnil] at hcount
    simp at hcount
  obtain ⟨r, hr⟩ := List.exists_mem_of_ne_nil _ hne
  rw [List.mem_filter] at hr
  obtain ⟨hmem, hcond⟩ := hr
  simp only [Bool.and_eq_true, decide_eq_true_eq] at hcond
  obtain ⟨hpass, hmatch⟩ := hcond
  refine ⟨r, hmem, hpass, ?_⟩
  cases hw : r.Why_I_Got_It_Wrong with
  | none => rw [rowMatches_none r c hw] at hmatch; exact absurd hmatch (by simp)
  | some w =>
    refine ⟨w, rfl, ?_⟩
    intro hwempty
    rw [hwempty] at hw
    rw [rowMatches_empty_explanation r c hw] at hmatch
    exact absurd hmatch (by simp)

/-- Witness for C5 at the scenario dataset: the occurrence of `P1` under
Tone/Attitude comes from a row with a present, non-empty explanation. -/
theorem skip_invariant_witness :
    ∃ r, r ∈ rowsC2 ∧ r.Passage_Title = "P1" ∧
      ∃ w, r.Why_I_Got_It_Wrong = some w ∧ w ≠ "" :=
  skip_invariant rowsC2 "Tone/Attitude" "P1" (by decide)

/-- C8: `df.dropna(subset=["Why_I_Got_It_Wrong"])` excludes every row whose
explanation cell is missing before the classifier runs (`pd.read_csv` turns
empty cells into NaN, so a loaded cell is never the empty string): every
row reaching the classifier has a present, non-empty explanation. -/
theorem dropna_excludes_missing (rows : List Row)
    (hread : ∀ r ∈ rows, r.Why_I_Got_It_Wrong ≠ some "")
    (r : Row) (hr : r ∈ dropnaWhy rows) :
    ∃ w, r.Why_I_Got_It_Wrong = some w ∧ w ≠ "" := by
  rw [dropnaWhy, List.mem_filter] at hr
  obtain ⟨hmem, hsome⟩ := hr
  obtain ⟨w, hw⟩ := Option.isSome_iff_exists.mp hsome
  refine ⟨w, hw, ?_⟩
  intro hwempty
  exact hread r hmem (by rw [hw, hwempty])

/-- Witness for C8 on a concrete two-row dataset with one missing cell. -/
theorem dropna_excludes_missing_witness :
    ∃ w, (Row.mk "P1" (some "tone issue")).Why_I_Got_It_Wrong = some w ∧ w ≠ "" :=
  dropna_excludes_missing [⟨"P1", some "tone issue"⟩, ⟨"P3", none⟩] (by decide)
    ⟨"P1", some "tone issue"⟩ (by decide)

/-- C2: on the spec's three-row dataset the classifier returns exactly
Tone/Attitude ↦ [P1], Context Misread ↦ [P2], Detail Missed ↦ [P2] (P3,
whose explanation is absent, appears nowhere), and `top_errors` returns the
three categories tied at count 1 in first-seen order. -/
theorem scenario_three_rows :
    analyze_errors rowsC2 =
        [("Tone/Attitude", ["P1"]), ("Context Misread", ["P2"]), ("Detail Missed", ["P2"])] ∧
      top_errors (analyze_errors rowsC2) =
        [("Tone/Attitude", ["P1"]), ("Context Misread", ["P2"]), ("Detail Missed", ["P2"])] := by
  have h1 : analyze_errors rowsC2 =
      [("Tone/Attitude", ["P1"]), ("Context Misread", ["P2"]), ("Detail Missed", ["P2"])] := by
    decide
  refine ⟨h1, ?_⟩
  have hs : List.Pairwise (fun a b => lenDescLe a b = true)
      [(("Tone/Attitude" : String), (["P1"] : List String)), ("Context Misread", ["P2"]),
       ("Detail Missed", ["P2"])] := by decide
  rw [top_errors, h1, List.mergeSort_of_sorted hs]
  decide

/-! ## Claim theorem: ranking -/

theorem lenDescLe_trans (a b c : String × List String)
    (hab : lenDescLe a b) (hbc : lenDescLe b c) : lenDescLe a c := by
  simp only [lenDescLe, decide_eq_true_eq] at *
  omega

theorem lenDescLe_total (a b : String × List String) : lenDescLe a b || lenDescLe b a := by
  simp only [lenDescLe]
  rcases Nat.le_total a.2.length b.2.length with h | h <;> simp [h]

/-- Stability of the ranking sort, stated through filters: restricting the
sorted report to the entries of any one match count gives exactly the
original report's entries of that count, in the original order. -/
theorem mergeSort_filter_key (r : ErrorReport) (k : Nat) :
    (r.mergeSort lenDescLe).filter (fun x => x.2.length == k) =
      r.filter (fun x => x.2.length == k) := by
  set p : String × List String → Bool := fun x => x.2.length == k with hp
  have hsub : List.Sublist (r.filter p) r := List.filter_sublist r
  have hpw : (r.filter p).Pairwise (fun a b => lenDescLe a b = true) := by
    apply List.pairwise_of_forall_mem_list
    intro a ha b hb
    have ha' := (List.mem_filter.mp ha).2
    have hb' := (List.mem_filter.mp hb).2
    simp only [hp, beq_iff_eq] at ha' hb'
    simp [lenDescLe, ha', hb']
  have hsub2 : List.Sublist (r.filter p) (r.mergeSort lenDescLe) :=
    List.sublist_mergeSort lenDescLe_trans lenDescLe_total hpw hsub
  have hself : (r.filter p).filter p = r.filter p :=
    List.filter_eq_self.mpr (fun a ha => List.of_mem_filter ha)
  have hsub3 : List.Sublist (r.filter p) ((r.mergeSort lenDescLe).filter p) := by
    have := hsub2.filter p
    rwa [hself] at this
  have hlen : ((r.mergeSort lenDescLe).filter p).length = (r.filter p).length :=
    ((List.mergeSort_perm r lenDescLe).filter p).length_eq
  exact (hsub3.eq_of_length hlen.symm).symm

/-- C3: `top_errors` returns at most 3 entries, ordered by sequence length
descending, with ties kept in first-seen report order (for each count `k`,
the returned entries of count `k` are an initial segment of the report's
entries of count `k`); on the empty report it returns the empty list. -/
theorem top_errors_rank_spec (r : ErrorReport) :
    (top_errors r).length ≤ 3 ∧
      (top_errors r).Pairwise (fun a b => b.2.length ≤ a.2.length) ∧
      (∀ k : Nat, ∃ t, r.filter (fun x => x.2.length == k) =
        (top_errors r).filter (fun x => x.2.length == k) ++ t) ∧
      top_errors [] = [] := by
  refine ⟨?_, ?_, ?_, by simp [top_errors]⟩
  · rw [top_errors]
    simpa using Nat.min_le_left 3 (r.mergeSort lenDescLe).length
  · have hs := List.sorted_mergeSort lenDescLe_trans lenDescLe_total r
    have htake := List.Pairwise.sublist (List.take_sublist 3 _) hs
    exact htake.imp (fun h => by simpa [lenDescLe] using h)
  · intro k
    refine ⟨(List.drop 3 (r.mergeSort lenDescLe)).filter (fun x => x.2.length == k), ?_⟩
    rw [← mergeSort_filter_key, top_errors]
    conv_lhs => rw [← List.take_append_drop 3 (r.mergeSort lenDescLe)]
    rw [List.filter_append]

/-! ## Claim theorems: session state -/

/-- Once the passage is cached, further runs of the passage block never
invoke the generator again and always read the cached value. -/
theorem runEnsure_cached (gens : List (Option String)) (s : Session) (t : String)
    (hs : s.passage = some t) :
    runEnsure gens s = (s, List.replicate gens.length (some t), 0) := by
  induction gens with
  | nil => simp [runEnsure]
  | cons g gs ih =>
    have h1 : ensurePassage g s = (s, 0) := by
      unfold ensurePassage
      rw [hs]

    simp [runEnsure, h1, ih, hs, List.replicate_succ]

/-- C1: starting from a fresh unit, running the passage block N ≥ 2 times
with no generator failure invokes the generator exactly once; every run
reads the same string as the first (the first generator output), and the
content field still holds it at the end — set once, never overwritten. -/
theorem at_most_once_generation (t : String) (rest : List (Option String))
    (hsucc : ∀ g ∈ some t :: rest, g ≠ none)
    (hN : 2 ≤ (some t :: rest).length) :
    (runEnsure (some t :: rest) freshSession).2.2 = 1 ∧
      (runEnsure (some t :: rest) freshSession).2.1 =
        List.replicate (some t :: rest).length (some t) ∧
      (runEnsure (some t :: rest) freshSession).1.passage = some t := by
  have h1 : ensurePassage (some t) freshSession =
      ({ freshSession with passage := some t }, 1) := rfl
  have h2 := runEnsure_cached rest { freshSession with passage := some t } t rfl
  refine ⟨?_, ?_, ?_⟩ <;>
    simp [runEnsure, h1, h2, List.replicate_succ]

/-- Witness for C1: two successful runs on a fresh unit. -/
theorem at_most_once_generation_witness :
    (runEnsure [some "PASSAGE", some "OTHER"] freshSession).2.2 = 1 ∧
      (runEnsure [some "PASSAGE", some "OTHER"] freshSession).2.1 =
        List.replicate 2 (some "PASSAGE") ∧
      (runEnsure [some "PASSAGE", some "OTHER"] freshSession).1.passage = some "PASSAGE" :=
  at_most_once_generation "PASSAGE" [some "OTHER"] (by decide) (by decide)

/-- C4: when the generator raises inside the chat handler, no assistant
entry is appended: the transcript equals the transcript immediately after
the user turn was appended (the user turn is last), and the failure is
surfaced as an absent reply. -/
theorem transcript_unchanged_on_failure (s : Session) (prompt : String)
    (gen : List Msg → Option String)
    (hfail : gen (full_context s prompt) = none) :
    (chatTurn gen prompt s).1.chat = s.chat ++ [Msg.mk "user" prompt] ∧
      (chatTurn gen prompt s).2.1 = none := by
  unfold chatTurn
  rw [hfail]
  exact ⟨rfl, rfl⟩

/-- Witness for C4: an always-failing generator on a fresh unit. -/
theorem transcript_unchanged_on_failure_witness :
    (chatTurn (fun _ => none) "hello" freshSession).1.chat =
        freshSession.chat ++ [Msg.mk "user" "hello"] ∧
      (chatTurn (fun _ => none) "hello" freshSession).2.1 = none :=
  transcript_unchanged_on_failure freshSession "hello" (fun _ => none) rfl

/-- C9: each chat submission invokes the generator exactly once, with
history equal to one assistant entry holding the cached passage followed by
the last 5 transcript entries (the just-appended user turn included), and
on success appends exactly the returned text as an assistant entry and
returns it. -/
theorem request_assistant_turn_spec (s : Session) (prompt content reply : String)
    (gen : List Msg → Option String) (hc : s.passage = some content)
    (hgen : gen (Msg.mk "assistant" content ::
      lastN 5 (s.chat ++ [Msg.mk "user" prompt])) = some reply) :
    chatTurn gen prompt s =
      ({ s with chat := s.chat ++ [Msg.mk "user" prompt, Msg.mk "assistant" reply] },
        some reply,
        [Msg.mk "assistant" content :: lastN 5 (s.chat ++ [Msg.mk "user" prompt])]) := by
  unfold chatTurn full_context
  rw [hc]
  simp only [Option.getD_some]
  rw [hgen]
  simp

/-- Witness for C9: a concrete unit with cached passage `"P"` and a
generator answering `"REPLY"`. -/
theorem request_assistant_turn_spec_witness :
    chatTurn (fun _ => some "REPLY") "hi" ⟨some "P", false, []⟩ =
      (⟨some "P", false, [Msg.mk "user" "hi", Msg.mk "assistant" "REPLY"]⟩, some "REPLY",
        [[Msg.mk "assistant" "P", Msg.mk "user" "hi"]]) :=
  request_assistant_turn_spec ⟨some "P", false, []⟩ "hi" "P" "REPLY"
    (fun _ => some "REPLY") rfl rfl

/-- No operation lowers the reveal flag. -/
theorem step_revealed_mono (s : Session) (op : Op) (h : s.revealed = true) :
    (step s op).revealed = true := by
  cases op with
  | genPassage g =>
    simp only [step]
    unfold ensurePassage
    cases s.passage with
    | some _ => exact h
    | none => cases g <;> exact h
  | revealAnswers =>
    simp only [step]
    unfold pressReveal
    simp [h]
  | chat gen prompt =>
    simp only [step]
    unfold chatTurn
    cases gen (full_context s prompt) <;> exact h

theorem runOps_revealed_mono (ops : List Op) (s : Session) (h : s.revealed = true) :
    (runOps ops s).revealed = true := by
  induction ops generalizing s with
  | nil => exact h
  | cons op rest ih => exact ih _ (step_revealed_mono s op h)

/-- Only the reveal button raises the reveal flag. -/
theorem step_revealed_false (s : Session) (op : Op) (hop : op ≠ Op.revealAnswers)
    (h : s.revealed = false) : (step s op).revealed = false := by
  cases op with
  | genPassage g =>
    simp only [step]
    unfold ensurePassage
    cases s.passage with
    | some _ => exact h
    | none => cases g <;> exact h
  | revealAnswers => exact absurd rfl hop
  | chat gen prompt =>
    simp only [step]
    unfold chatTurn
    cases gen (full_context s prompt) <;> exact h

theorem runOps_no_reveal_false (ops : List Op) (s : Session)
    (hops : Op.revealAnswers ∉ ops) (h : s.revealed = false) :
    (runOps ops s).revealed = false := by
  induction ops generalizing s with
  | nil => exact h
  | cons op rest ih =>
    have hop : op ≠ Op.revealAnswers := fun he => hops (he ▸ List.mem_cons_self op rest)
    exact ih _ (fun hm => hops (List.mem_cons_of_mem op hm)) (step_revealed_false s op hop h)

/-- Pressing the reveal button always leaves the flag raised. -/
theorem step_reveal_sets (s : Session) : (step s Op.revealAnswers).revealed = true := by
  simp only [step]
  unfold pressReveal
  cases hb : s.revealed <;> simp [hb]

/-- C7: the reveal flag reads false from unit creation through any
reveal-free operation sequence, is monotone under every exposed operation,
and reads true for the rest of the session after the first reveal,
whatever operations follow. -/
theorem reveal_monotonic (ops : List Op) :
    (Op.revealAnswers ∉ ops → isRevealed (runOps ops freshSession) = false) ∧
      (∀ s : Session, isRevealed s = true → isRevealed (runOps ops s) = true) ∧
      (∀ pre : List Op,
        isRevealed (runOps (pre ++ Op.revealAnswers :: ops) freshSession) = true) := by
  refine ⟨?_, ?_, ?_⟩
  · intro h
    exact runOps_no_reveal_false ops freshSession h rfl
  · intro s h
    exact runOps_revealed_mono ops s h
  · intro pre
    show (runOps (pre ++ Op.revealAnswers :: ops) freshSession).revealed = true
    rw [runOps, List.foldl_append, List.foldl_cons]
    exact runOps_revealed_mono ops _ (step_reveal_sets _)

/-- Witness for C7: a reveal-free run reads false; any state with the flag
raised keeps it; a run whose second step is the reveal ends raised. -/
theorem reveal_monotonic_witness :
    isRevealed (runOps [Op.genPassage (some "P")] freshSession) = false ∧
      isRevealed (runOps [Op.genPassage (some "P")] ⟨none, true, []⟩) = true ∧
      isRevealed (runOps ([Op.genPassage (some "P")] ++
        Op.revealAnswers :: [Op.genPassage (some "P")]) freshSession) = true :=
  ⟨(reveal_monotonic [Op.genPassage (some "P")]).1 (by simp),
   (reveal_monotonic [Op.genPassage (some "P")]).2.1 ⟨none, true, []⟩ rfl,
   (reveal_monotonic [Op.genPassage (some "P")]).2.2 [Op.genPassage (some "P")]⟩

/-! ## Claim theorem: content parsing -/

/-- Rebuilding a string from its character view is the identity. -/
theorem String_mk_toList (s : String) : String.mk s.toList = s := rfl

/-- A prefix match decomposes the list: the scan resumes after the marker. -/
theorem isPrefixList_append_drop {p l : List Char} (h : isPrefixList p l = true) :
    l = p ++ l.drop p.length := by
  induction p generalizing l with
  | nil => simp
  | cons a as ih =>
    cases l with
    | nil => simp [isPrefixList] at h
    | cons b bs =>
      simp only [isPrefixList, Bool.and_eq_true, beq_iff_eq] at h
      obtain ⟨hab, hrest⟩ := h
      subst hab
      simpa using ih hrest

/-- A prefix of a list is a prefix of any extension of it. -/
theorem isPrefixList_append_ext {p a : List Char} (b : List Char)
    (h : isPrefixList p a = true) : isPrefixList p (a ++ b) = true := by
  induction p generalizing a with
  | nil => simp [isPrefixList]
  | cons x xs ih =>
    cases a with
    | nil => simp [isPrefixList] at h
    | cons y ys =>
      simp only [isPrefixList, Bool.and_eq_true] at h
      simp only [List.cons_append, isPrefixList, Bool.and_eq_true]
      exact ⟨h.1, ih h.2⟩

/-- When the marker does not occur in the remaining text, the scan returns
a single piece: the accumulator followed by the rest. -/
theorem containsSub_false_split (l acc : List Char)
    (h : containsSub markerChars l = false) :
    splitOnMarkerAux l acc = [acc.reverse ++ l] := by
  induction l generalizing acc with
  | nil => simp [splitOnMarkerAux]
  | cons c cs ih =>
    rw [containsSub] at h
    rw [Bool.or_eq_false_iff] at h
    rw [splitOnMarkerAux.eq_2]
    rw [dif_neg (by rw [h.1]; exact Bool.false_ne_true)]
    rw [ih _ h.2]
    simp

/-- When the marker occurs, the text decomposes at its first occurrence:
the scan emits the marker-free part before it and restarts after it. -/
theorem containsSub_true_split (l : List Char) (h : containsSub markerChars l = true) :
    ∃ pre post : List Char,
      l = pre ++ markerChars ++ post ∧ containsSub markerChars pre = false ∧
        ∀ acc, splitOnMarkerAux l acc = (acc.reverse ++ pre) :: splitOnMarkerAux post [] := by
  induction l with
  | nil =>
    rw [containsSub] at h
    exact absurd h (by decide)
  | cons c cs ih =>
    by_cases hp : isPrefixList markerChars (c :: cs) = true
    · refine ⟨[], (c :: cs).drop markerChars.length, ?_, by decide, ?_⟩
      · simpa using isPrefixList_append_drop hp
      · intro acc
        rw [splitOnMarkerAux.eq_2]
        rw [dif_pos hp]
        simp
    · rw [Bool.not_eq_true] at hp
      have h2 : containsSub markerChars cs = true := by
        rw [containsSub, hp, Bool.false_or] at h
        exact h
      obtain ⟨pre, post, hdec, hpre, hsplit⟩ := ih h2
      refine ⟨c :: pre, post, by simp [hdec], ?_, ?_⟩
      · have hnp : isPrefixList markerChars (c :: pre) = false := by
          cases hcase : isPrefixList markerChars (c :: pre) with
          | false => rfl
          | true =>
            exfalso
            have hext := isPrefixList_append_ext (markerChars ++ post) hcase
            rw [show (c :: pre) ++ (markerChars ++ post) = c :: cs by
              simp [hdec, List.append_assoc]] at hext
            rw [hp] at hext
            exact Bool.false_ne_true hext
        rw [containsSub, hnp, hpre]
        rfl
      · intro acc
        rw [splitOnMarkerAux.eq_2]
        rw [dif_neg (by rw [hp]; exact Bool.false_ne_true)]
        rw [hsplit (c :: acc)]
        simp

/-- C6: parsing splits the generated string on the fixed section marker
into the trimmed text before it (passage section) and the trimmed text
after it (answer section); on a string not containing the marker it does
not fail: the answer section degrades to the fixed unavailable sentinel
and the passage section is the whole trimmed text. -/
theorem parse_content_contract (full_text : String) :
    (containsSub markerChars full_text.toList = false →
      parseContent full_text = (full_text.trim, "⚠️ Answers not available.")) ∧
      (containsSub markerChars full_text.toList = true →
        ∃ pre post : List Char,
          full_text.toList = pre ++ markerChars ++ post ∧
            containsSub markerChars pre = false ∧
            (parseContent full_text).1 = (String.mk pre).trim ∧
            (containsSub markerChars post = false →
              (parseContent full_text).2 = (String.mk post).trim)) := by
  constructor
  · intro h
    unfold parseContent pySplitOnMarker
    rw [containsSub_false_split _ _ h]
    simp [String_mk_toList]
  · intro h
    obtain ⟨pre, post, hdec, hpre, hsplit⟩ := containsSub_true_split _ h
    refine ⟨pre, post, hdec, hpre, ?_, ?_⟩
    · unfold parseContent pySplitOnMarker
      rw [hsplit []]
      simp
    · intro hpost
      unfold parseContent pySplitOnMarker
      rw [hsplit [], containsSub_false_split post [] hpost]
      simp

/-- Witness for C6: a marker-free string degrades to the sentinel; a string
with one marker splits into its two trimmed sections. -/
theorem parse_content_contract_witness :
    parseContent "some passage text" = ("some passage text".trim, "⚠️ Answers not available.") ∧
      ∃ pre post : List Char,
        ("ABC ### Answer & Explanation DEF").toList = pre ++ markerChars ++ post ∧
          containsSub markerChars pre = false ∧
          (parseContent "ABC ### Answer & Explanation DEF").1 = (String.mk pre).trim ∧
          (containsSub markerChars post = false →
            (parseContent "ABC ### Answer & Explanation DEF").2 = (String.mk post).trim) :=
  ⟨(parse_content_contract "some passage text").1 (by decide),
    (parse_content_contract "ABC ### Answer & Explanation DEF").2 (by decide)⟩

end CarsAnalyzer
